import Mathlib

/-
Shallow embedding of the CHIP-8 interpreter core of the repository
belen-albeza/chip8-wasm (files src/chip8/src/vm.rs, src/chip8/src/vm/opcode.rs,
src/chip8/src/vm/error.rs, src/chip8/src/error.rs, src/chip8/src/lib.rs).

Conventions of the embedding:
- Machine integers are Nat with explicit reduction: u8 arithmetic wraps with
  % 256 and u16 arithmetic wraps with % 65536 at exactly the operations where
  Rust (release profile) wraps.  Rust panics that are unconditional in both
  profiles (out-of-bounds slice indexing) are modelled by an explicit `crash`
  outcome, since a panic aborts the interpreter instead of returning a value.
- A `&mut self` method returning `Result<(), VmError>` becomes a function from
  the state to an outcome that carries the (possibly partially mutated) state
  also on the error path, exactly as the Rust borrow leaves `self` mutated when
  an early `?` return fires.
- `Vec<u16>` used as a stack (push/pop at the end) is embedded as a `List Nat`
  with push = cons and pop = head, which has the same LIFO behaviour.
- The injected random source `R: Fn() -> u8` is embedded as the byte it
  returns; no claim exercises the `Rand` instruction.
-/

namespace Chip8

/-- Fault taxonomy of the engine, from src/chip8/src/vm/error.rs. -/
inductive VmError where
  | InvalidAddress : Nat → VmError
  | InvalidOpcode : Nat → VmError
  | InvalidKey : Nat → VmError
  | EmptyStack : VmError
deriving DecidableEq, Repr

/-- Library-level error type, from src/chip8/src/error.rs. -/
inductive Error where
  | VmErr : VmError → Error
  | InvalidRom : Error
  | InvalidTheme : Error
deriving DecidableEq, Repr

/-- Decoded instructions, from the `Opcode` enum in src/chip8/src/vm/opcode.rs. -/
inductive Opcode where
  | NoOp
  | ClearScreen
  | Ret
  | Jump (nnn : Nat)
  | Call (nnn : Nat)
  | SkipIfEq (x kk : Nat)
  | SkipIfNeq (x kk : Nat)
  | SkipEqVxVy (x y : Nat)
  | LoadVx (x kk : Nat)
  | AddVx (x kk : Nat)
  | LoadVxVy (x y : Nat)
  | Or (x y : Nat)
  | And (x y : Nat)
  | Xor (x y : Nat)
  | Add (x y : Nat)
  | Sub (x y : Nat)
  | ShiftR (x y : Nat)
  | SubN (x y : Nat)
  | ShiftL (x y : Nat)
  | SkipNeqVxVy (x y : Nat)
  | LoadI (nnn : Nat)
  | JumpOffset (nnn : Nat)
  | Rand (x kk : Nat)
  | Display (x y n : Nat)
  | SkipIfKey (x : Nat)
  | SkipIfNotKey (x : Nat)
  | LoadDelay (x : Nat)
  | WaitForKey (x : Nat)
  | StoreDelay (x : Nat)
  | StoreSound (x : Nat)
  | AddI (x : Nat)
  | LoadDigit (x : Nat)
  | Bcd (x : Nat)
  | StoreRegisters (x : Nat)
  | LoadRegisters (x : Nat)
deriving DecidableEq, Repr

/-- Decoder `impl TryFrom<u16> for Opcode` in src/chip8/src/vm/opcode.rs.
The four scrutinees are the four nibbles of the word, highest first; the
address operand is the low 12 bits and the immediate operand the low 8 bits,
exactly as in the source. -/
def tryFromU16 (value : Nat) : Except VmError Opcode :=
  match (value &&& 0xf000) >>> 12, (value &&& 0x0f00) >>> 8,
        (value &&& 0x00f0) >>> 4, value &&& 0x000f with
  | 0x0, 0x0, 0xe, 0x0 => .ok .ClearScreen
  | 0x0, 0x0, 0xe, 0xe => .ok .Ret
  | 0x0, _, _, _ => .ok .NoOp
  | 0x1, _, _, _ => .ok (.Jump (value &&& 0x0fff))
  | 0x2, _, _, _ => .ok (.Call (value &&& 0x0fff))
  | 0x3, x, _, _ => .ok (.SkipIfEq x (value &&& 0x00ff))
  | 0x4, x, _, _ => .ok (.SkipIfNeq x (value &&& 0x00ff))
  | 0x5, x, y, 0 => .ok (.SkipEqVxVy x y)
  | 0x6, x, _, _ => .ok (.LoadVx x (value &&& 0x00ff))
  | 0x7, x, _, _ => .ok (.AddVx x (value &&& 0x00ff))
  | 0x8, x, y, 0x0 => .ok (.LoadVxVy x y)
  | 0x8, x, y, 0x1 => .ok (.Or x y)
  | 0x8, x, y, 0x2 => .ok (.And x y)
  | 0x8, x, y, 0x3 => .ok (.Xor x y)
  | 0x8, x, y, 0x4 => .ok (.Add x y)
  | 0x8, x, y, 0x5 => .ok (.Sub x y)
  | 0x8, x, y, 0x6 => .ok (.ShiftR x y)
  | 0x8, x, y, 0x7 => .ok (.SubN x y)
  | 0x8, x, y, 0xe => .ok (.ShiftL x y)
  | 0x9, x, y, 0 => .ok (.SkipNeqVxVy x y)
  | 0xa, _, _, _ => .ok (.LoadI (value &&& 0x0fff))
  | 0xb, _, _, _ => .ok (.JumpOffset (value &&& 0x0fff))
  | 0xc, x, _, _ => .ok (.Rand x (value &&& 0x00ff))
  | 0xd, x, y, n => .ok (.Display x y n)
  | 0xe, x, 0x9, 0xe => .ok (.SkipIfKey x)
  | 0xe, x, 0xa, 0x1 => .ok (.SkipIfNotKey x)
  | 0xf, x, 0x0, 0x7 => .ok (.LoadDelay x)
  | 0xf, x, 0x0, 0xa => .ok (.WaitForKey x)
  | 0xf, x, 0x1, 0x5 => .ok (.StoreDelay x)
  | 0xf, x, 0x1, 0x8 => .ok (.StoreSound x)
  | 0xf, x, 0x1, 0xe => .ok (.AddI x)
  | 0xf, x, 0x2, 0x9 => .ok (.LoadDigit x)
  | 0xf, x, 0x3, 0x3 => .ok (.Bcd x)
  | 0xf, x, 0x5, 0x5 => .ok (.StoreRegisters x)
  | 0xf, x, 0x6, 0x5 => .ok (.LoadRegisters x)
  | _, _, _, _ => .error (.InvalidOpcode value)

/-- Engine state, from `struct Vm` in src/chip8/src/vm.rs.  Fixed-size arrays
(`[u8; 4096]`, `[u8; 16]`, `[bool; 2048]`, `[bool; 16]`) are embedded as total
functions from the index; every access the source performs is either guarded by
`get`/`get_mut` (embedded as an explicit `< bound` test) or made with an index
the decoder bounds below the array length. -/
structure Vm where
  ram : Nat → Nat
  pc : Nat
  i_register : Nat
  delay : Nat
  sound : Nat
  v_registers : Nat → Nat
  stack : List Nat
  randomize : Nat
  is_waiting : Bool
  vx_after_wait : Nat
  display : Nat → Bool
  keys : Nat → Bool

/-- Pointwise update of an embedded fixed-size array. -/
def updFn {α : Type} (f : Nat → α) (i : Nat) (v : α) : Nat → α :=
  fun j => if j = i then v else f j

/-- Outcome of a fallible engine operation: `ok` and `fault` carry the state
the Rust `&mut self` borrow holds after the call (mutations made before an
early `?` return persist); `crash` models a Rust panic, which aborts instead
of returning. -/
inductive StepResult where
  | ok : Vm → StepResult
  | fault : VmError → Vm → StepResult
  | crash : StepResult

/-- Width constant `DISPLAY_WIDTH` from src/chip8/src/vm.rs. -/
def DISPLAY_WIDTH : Nat := 64

/-- Height constant `DISPLAY_HEIGHT` from src/chip8/src/vm.rs. -/
def DISPLAY_HEIGHT : Nat := 32

/-- Cell count `DISPLAY_LEN` from src/chip8/src/vm.rs. -/
def DISPLAY_LEN : Nat := DISPLAY_WIDTH * DISPLAY_HEIGHT

/-- Font table written by `load_fonts` at address 0x000 (16 glyphs of 5 bytes,
flattened). -/
def fontData : List Nat :=
  [0xf0, 0x90, 0x90, 0x90, 0xf0,
   0x20, 0x60, 0x20, 0x20, 0x70,
   0xf0, 0x10, 0xf0, 0x80, 0xf0,
   0xf0, 0x10, 0xf0, 0x10, 0xf0,
   0x90, 0x90, 0xf0, 0x10, 0x10,
   0xf0, 0x80, 0xf0, 0x10, 0x10,
   0xf0, 0x80, 0xf0, 0x90, 0xf0,
   0xf0, 0x10, 0x20, 0x40, 0x40,
   0xf0, 0x90, 0xf0, 0x90, 0xf0,
   0xf0, 0x90, 0xf0, 0x10, 0xf0,
   0xf0, 0x90, 0xf0, 0x90, 0x90,
   0xe0, 0x90, 0xe0, 0x90, 0xe0,
   0xf0, 0x80, 0x80, 0x80, 0xf0,
   0xe0, 0x90, 0x90, 0x90, 0xe0,
   0xf0, 0x80, 0xf0, 0x80, 0xf0,
   0xf0, 0x80, 0xf0, 0x80, 0x80]

/-- Constructor `Vm::new`: zeroes memory, copies the rom at 0x200, writes the
font table at 0x000, pc = 0x200, everything else zeroed.  The slice copy
`memory[0x200..0x200 + rom.len()]` panics (in every build profile) when
`0x200 + rom.len() > 4096`; that panic is the `none` case. -/
def Vm.new (rom : List Nat) (randomize : Nat) : Option Vm :=
  if 0x200 + rom.length > 4096 then none
  else some
    { ram := fun a =>
        if a < 80 then fontData.getD a 0
        else if 0x200 ≤ a ∧ a < 0x200 + rom.length then rom.getD (a - 0x200) 0
        else 0
      pc := 0x200
      i_register := 0
      delay := 0
      sound := 0
      v_registers := fun _ => 0
      stack := []
      randomize := randomize
      is_waiting := false
      vx_after_wait := 0
      display := fun _ => false
      keys := fun _ => false }

/-- Outcome of `loadRom`, from src/chip8/src/lib.rs: an engine, an explicit
library error, or a panic inside `Emu::new`/`Vm::new`. -/
inductive LoadResult where
  | ok : Vm → LoadResult
  | error : Error → LoadResult
  | crash : LoadResult

/-- Loader `load_rom` from src/chip8/src/lib.rs: note the source bound is the
decimal literal `4096 - 200`, not `4096 - 0x200`. -/
def load_rom (rom : List Nat) : LoadResult :=
  if rom.length > 4096 - 200 then .error .InvalidRom
  else
    match Vm.new rom 0 with
    | some vm => .ok vm
    | none => .crash

/-- Method `set_key` from src/chip8/src/vm.rs: bounds-checks the key through
`keys.get_mut`, stores the new key state, and if this is a key-down while the
engine is waiting, clears the wait flag and stores the key index in the target
register recorded by the wait instruction. -/
def set_key (vm : Vm) (key : Nat) (value : Bool) : Vm × Option VmError :=
  if key < 16 then
    let vm1 := { vm with keys := updFn vm.keys key value }
    if value && vm1.is_waiting then
      ({ vm1 with
          is_waiting := false
          v_registers := updFn vm1.v_registers vm1.vx_after_wait key }, none)
    else (vm1, none)
  else (vm, some (.InvalidKey key))

/-- Method `tick_timers`: both timers saturate at zero (`saturating_sub`,
which is Nat subtraction). -/
def tick_timers (vm : Vm) : Vm :=
  { vm with delay := vm.delay - 1, sound := vm.sound - 1 }

/-- Method `read_byte`: reads ram at pc (faulting when pc is outside 0..4096)
and increments pc afterwards in either case; the u16 increment wraps. -/
def read_byte (vm : Vm) : Vm × Except VmError Nat :=
  let res : Except VmError Nat :=
    if vm.pc < 4096 then .ok (vm.ram vm.pc) else .error (.InvalidAddress vm.pc)
  ({ vm with pc := (vm.pc + 1) % 65536 }, res)

/-- Method `next_opcode`: two sequential `read_byte` calls assembled into a
big-endian 16-bit word; an error in the first read returns before the second. -/
def next_opcode (vm : Vm) : Vm × Except VmError Nat :=
  match read_byte vm with
  | (vm1, .error e) => (vm1, .error e)
  | (vm1, .ok hi) =>
    match read_byte vm1 with
    | (vm2, .error e) => (vm2, .error e)
    | (vm2, .ok lo) => (vm2, .ok (hi * 256 + lo))

/-- Method `write_byte_at`: checked ram write through `get_mut`. -/
def write_byte_at (vm : Vm) (addr value : Nat) : Vm × Option VmError :=
  if addr < 4096 then ({ vm with ram := updFn vm.ram addr value }, none)
  else (vm, some (.InvalidAddress addr))

/-- Method `read_byte_at`: checked ram read through `get`. -/
def read_byte_at (vm : Vm) (addr : Nat) : Except VmError Nat :=
  if addr < 4096 then .ok (vm.ram addr) else .error (.InvalidAddress addr)

/-- Handler `exec_clear_screen`. -/
def exec_clear_screen (vm : Vm) : StepResult :=
  .ok { vm with display := fun _ => false }

/-- Handler `exec_jump_absolute`. -/
def exec_jump_absolute (vm : Vm) (addr : Nat) : StepResult :=
  .ok { vm with pc := addr }

/-- Handler `exec_load_vx`. -/
def exec_load_vx (vm : Vm) (x value : Nat) : StepResult :=
  .ok { vm with v_registers := updFn vm.v_registers x value }

/-- Handler `exec_add_vx` (`wrapping_add` on u8). -/
def exec_add_vx (vm : Vm) (x value : Nat) : StepResult :=
  .ok { vm with
    v_registers := updFn vm.v_registers x ((vm.v_registers x + value) % 256) }

/-- Handler `exec_load_i`. -/
def exec_load_i (vm : Vm) (addr : Nat) : StepResult :=
  .ok { vm with i_register := addr }

/-- Helper `put_pixel`: wraps the coordinates to the 64 × 32 grid, toggles the
cell in the row-major display array and reports whether the cell was lit
before the toggle. -/
def put_pixel (vm : Vm) (x y : Nat) : Vm × Bool :=
  let x' := x % DISPLAY_WIDTH
  let y' := y % DISPLAY_HEIGHT
  let i := y' * DISPLAY_WIDTH + x'
  (({ vm with display := updFn vm.display i (!vm.display i) }), vm.display i)

/-- Body of the two nested sprite loops of `exec_display` for one (row, col)
pair: tests the sprite bit `sprite[row] & (0x80 >> col)`, and when set toggles
the cell at the wrapped coordinates (the u8 additions `sprite_x + col` and
`sprite_y + row` wrap modulo 256) and records a collision in VF. -/
def drawPair (ramSnap : Nat → Nat) (addr sx sy : Nat) (vm : Vm) (p : Nat × Nat) : Vm :=
  if ramSnap (addr + p.1) &&& (0x80 >>> p.2) ≠ 0 then
    let r := put_pixel vm ((sx + p.2) % 256) ((sy + p.1) % 256)
    if r.2 then { r.1 with v_registers := updFn r.1.v_registers 0xf 1 } else r.1
  else vm

/-- Iteration order of the two nested loops `for row in 0..rows { for col in
0..8 }` of `exec_display`. -/
def spritePairs (rows : Nat) : List (Nat × Nat) :=
  (List.range rows).flatMap (fun r => (List.range 8).map (fun c => (r, c)))

/-- Handler `exec_display`: clears VF, reads the anchor registers, then takes
the sprite slice `self.ram[addr..addr + rows]` — an unchecked slice index that
panics when `addr + rows > 4096` — and XOR-draws the n×8 sprite bits. -/
def exec_display (vm : Vm) (vx vy rows : Nat) : StepResult :=
  let vm0 := { vm with v_registers := updFn vm.v_registers 0xf 0 }
  let sx := vm0.v_registers vx
  let sy := vm0.v_registers vy
  let addr := vm0.i_register
  if addr + rows > 4096 then .crash
  else .ok ((spritePairs rows).foldl (drawPair vm0.ram addr sx sy) vm0)

/-- Handler `exec_skip_if_equal` (u16 pc increment wraps). -/
def exec_skip_if_equal (vm : Vm) (x value : Nat) : StepResult :=
  if vm.v_registers x = value then .ok { vm with pc := (vm.pc + 2) % 65536 }
  else .ok vm

/-- Handler `exec_skip_if_not_equal`. -/
def exec_skip_if_not_equal (vm : Vm) (x value : Nat) : StepResult :=
  if vm.v_registers x ≠ value then .ok { vm with pc := (vm.pc + 2) % 65536 }
  else .ok vm

/-- Handler `exec_skip_if_equal_vx_vy`. -/
def exec_skip_if_equal_vx_vy (vm : Vm) (x y : Nat) : StepResult :=
  if vm.v_registers x = vm.v_registers y then
    .ok { vm with pc := (vm.pc + 2) % 65536 }
  else .ok vm

/-- Handler `exec_skip_if_not_equal_vx_vy`. -/
def exec_skip_if_not_equal_vx_vy (vm : Vm) (x y : Nat) : StepResult :=
  if vm.v_registers x ≠ vm.v_registers y then
    .ok { vm with pc := (vm.pc + 2) % 65536 }
  else .ok vm

/-- Handler `exec_load_vx_vy`. -/
def exec_load_vx_vy (vm : Vm) (x y : Nat) : StepResult :=
  .ok { vm with v_registers := updFn vm.v_registers x (vm.v_registers y) }

/-- Handler `exec_or_vx_vy`. -/
def exec_or_vx_vy (vm : Vm) (x y : Nat) : StepResult :=
  .ok { vm with
    v_registers := updFn vm.v_registers x (vm.v_registers x ||| vm.v_registers y) }

/-- Handler `exec_and_vx_vy`. -/
def exec_and_vx_vy (vm : Vm) (x y : Nat) : StepResult :=
  .ok { vm with
    v_registers := updFn vm.v_registers x (vm.v_registers x &&& vm.v_registers y) }

/-- Handler `exec_xor_vx_vy`. -/
def exec_xor_vx_vy (vm : Vm) (x y : Nat) : StepResult :=
  .ok { vm with
    v_registers := updFn vm.v_registers x (vm.v_registers x ^^^ vm.v_registers y) }

/-- Handler `exec_add_vx_vy` (`overflowing_add` on u8): writes the wrapped sum
to Vx first and the carry flag to VF second. -/
def exec_add_vx_vy (vm : Vm) (x y : Nat) : StepResult :=
  let value := (vm.v_registers x + vm.v_registers y) % 256
  let carry := 256 ≤ vm.v_registers x + vm.v_registers y
  .ok { vm with
    v_registers :=
      updFn (updFn vm.v_registers x value) 0xf (if carry then 0x01 else 0x00) }

/-- Handler `exec_sub_vx_vy` (`overflowing_sub` on u8): writes the wrapped
difference Vx − Vy to Vx first and the no-borrow flag to VF second. -/
def exec_sub_vx_vy (vm : Vm) (x y : Nat) : StepResult :=
  let value := (vm.v_registers x + 256 - vm.v_registers y % 256) % 256
  let borrow := vm.v_registers x < vm.v_registers y
  .ok { vm with
    v_registers :=
      updFn (updFn vm.v_registers x value) 0xf (if borrow then 0x00 else 0x01) }

/-- Handler `exec_subn_vy_vx`: writes the wrapped difference Vy − Vx to Vx
first and the no-borrow flag to VF second. -/
def exec_subn_vy_vx (vm : Vm) (x y : Nat) : StepResult :=
  let value := (vm.v_registers y + 256 - vm.v_registers x % 256) % 256
  let borrow := vm.v_registers y < vm.v_registers x
  .ok { vm with
    v_registers :=
      updFn (updFn vm.v_registers x value) 0xf (if borrow then 0x00 else 0x01) }

/-- Handler `exec_shift_right`: shifts Vy, writes the result to Vx first and
the shifted-out low bit of Vy to VF second. -/
def exec_shift_right (vm : Vm) (x y : Nat) : StepResult :=
  let yv := vm.v_registers y
  let shifted_out := yv &&& 0x01
  .ok { vm with
    v_registers := updFn (updFn vm.v_registers x (yv >>> 1)) 0xf shifted_out }

/-- Handler `exec_shift_left`: shifts Vy (u8 shift truncates to 8 bits),
writes the result to Vx first and the shifted-out high bit of Vy to VF
second. -/
def exec_shift_left (vm : Vm) (x y : Nat) : StepResult :=
  let yv := vm.v_registers y
  let shifted_out := (yv &&& 0x80) >>> 7
  .ok { vm with
    v_registers :=
      updFn (updFn vm.v_registers x ((yv <<< 1) % 256)) 0xf shifted_out }

/-- Handler `exec_jump_offset` (u16 addition wraps). -/
def exec_jump_offset (vm : Vm) (addr : Nat) : StepResult :=
  .ok { vm with pc := (addr + vm.v_registers 0x0) % 65536 }

/-- Handler `exec_rand`: masks the injected random byte. -/
def exec_rand (vm : Vm) (x value : Nat) : StepResult :=
  .ok { vm with v_registers := updFn vm.v_registers x (vm.randomize &&& value) }

/-- Helper `get_vx_key`: reads the key index from Vx and bounds-checks it
through `keys.get`. -/
def get_vx_key (vm : Vm) (x : Nat) : Except VmError Bool :=
  let key := vm.v_registers x
  if key < 16 then .ok (vm.keys key) else .error (.InvalidKey key)

/-- Handler `exec_skip_if_key`. -/
def exec_skip_if_key (vm : Vm) (x : Nat) : StepResult :=
  match get_vx_key vm x with
  | .error e => .fault e vm
  | .ok true => .ok { vm with pc := (vm.pc + 2) % 65536 }
  | .ok false => .ok vm

/-- Handler `exec_skip_if_not_key`. -/
def exec_skip_if_not_key (vm : Vm) (x : Nat) : StepResult :=
  match get_vx_key vm x with
  | .error e => .fault e vm
  | .ok false => .ok { vm with pc := (vm.pc + 2) % 65536 }
  | .ok true => .ok vm

/-- Handler `exec_wait_for_key`: records the target register and raises the
wait flag. -/
def exec_wait_for_key (vm : Vm) (x : Nat) : StepResult :=
  .ok { vm with vx_after_wait := x, is_waiting := true }

/-- Handler `exec_load_delay`. -/
def exec_load_delay (vm : Vm) (x : Nat) : StepResult :=
  .ok { vm with v_registers := updFn vm.v_registers x vm.delay }

/-- Handler `exec_store_delay`. -/
def exec_store_delay (vm : Vm) (x : Nat) : StepResult :=
  .ok { vm with delay := vm.v_registers x }

/-- Handler `exec_store_sound`. -/
def exec_store_sound (vm : Vm) (x : Nat) : StepResult :=
  .ok { vm with sound := vm.v_registers x }

/-- Loop of `exec_store_registers`, recursing on the number of registers still
to write: each iteration performs a checked write of register `idx` at the
current index register and increments the index register (u16 wrap); an
address fault returns early, keeping the writes and increments already made. -/
def storeRegsAux (idx : Nat) : Nat → Vm → StepResult
  | 0, vm => .ok vm
  | n + 1, vm =>
    if vm.i_register < 4096 then
      storeRegsAux (idx + 1) n
        { vm with
          ram := updFn vm.ram vm.i_register (vm.v_registers idx)
          i_register := (vm.i_register + 1) % 65536 }
    else .fault (.InvalidAddress vm.i_register) vm

/-- Handler `exec_store_registers` (`for i in 0..=vx`). -/
def exec_store_registers (vm : Vm) (vx : Nat) : StepResult :=
  storeRegsAux 0 (vx + 1) vm

/-- Loop of `exec_load_registers`: each iteration performs a checked read at
the current index register into register `idx` and increments the index
register. -/
def loadRegsAux (idx : Nat) : Nat → Vm → StepResult
  | 0, vm => .ok vm
  | n + 1, vm =>
    if vm.i_register < 4096 then
      loadRegsAux (idx + 1) n
        { vm with
          v_registers := updFn vm.v_registers idx (vm.ram vm.i_register)
          i_register := (vm.i_register + 1) % 65536 }
    else .fault (.InvalidAddress vm.i_register) vm

/-- Handler `exec_load_registers` (`for i in 0..=vx`). -/
def exec_load_registers (vm : Vm) (vx : Nat) : StepResult :=
  loadRegsAux 0 (vx + 1) vm

/-- Handler `exec_call`: pushes the current pc and jumps. -/
def exec_call (vm : Vm) (addr : Nat) : StepResult :=
  .ok { vm with stack := vm.pc :: vm.stack, pc := addr }

/-- Handler `exec_return`: pops the stack into pc, faulting on an empty stack
with the state untouched. -/
def exec_return (vm : Vm) : StepResult :=
  match vm.stack with
  | [] => .fault .EmptyStack vm
  | p :: rest => .ok { vm with pc := p, stack := rest }

/-- Handler `exec_add_i` (u16 addition wraps). -/
def exec_add_i (vm : Vm) (x : Nat) : StepResult :=
  .ok { vm with i_register := (vm.i_register + vm.v_registers x) % 65536 }

/-- Handler `exec_bcd`: decimal digits of Vx written by three sequential
checked writes at i, i+1, i+2 (u16 address additions wrap); an address fault
returns early, keeping the writes already made.  The index register is not
modified. -/
def exec_bcd (vm : Vm) (x : Nat) : StepResult :=
  let value := vm.v_registers x
  let hundreds := value / 100
  let v1 := value - hundreds * 100
  let tens := v1 / 10
  let ones := v1 - tens * 10
  match write_byte_at vm vm.i_register hundreds with
  | (vm1, some e) => .fault e vm1
  | (vm1, none) =>
    match write_byte_at vm1 ((vm1.i_register + 1) % 65536) tens with
    | (vm2, some e) => .fault e vm2
    | (vm2, none) =>
      match write_byte_at vm2 ((vm2.i_register + 2) % 65536) ones with
      | (vm3, some e) => .fault e vm3
      | (vm3, none) => .ok vm3

/-- Handler `exec_load_digit`: the low nibble of Vx selects a 5-byte font
glyph. -/
def exec_load_digit (vm : Vm) (x : Nat) : StepResult :=
  .ok { vm with i_register := (vm.v_registers x &&& 0x0f) * 5 }

/-- Dispatch of a decoded instruction to its handler, from the `match opcode`
in `Vm::tick`. -/
def execOpcode (vm : Vm) : Opcode → StepResult
  | .ClearScreen => exec_clear_screen vm
  | .Ret => exec_return vm
  | .Jump addr => exec_jump_absolute vm addr
  | .Call addr => exec_call vm addr
  | .LoadVx x value => exec_load_vx vm x value
  | .SkipIfEq x value => exec_skip_if_equal vm x value
  | .SkipIfNeq x value => exec_skip_if_not_equal vm x value
  | .SkipEqVxVy x y => exec_skip_if_equal_vx_vy vm x y
  | .AddVx x value => exec_add_vx vm x value
  | .LoadVxVy x y => exec_load_vx_vy vm x y
  | .Or x y => exec_or_vx_vy vm x y
  | .And x y => exec_and_vx_vy vm x y
  | .Xor x y => exec_xor_vx_vy vm x y
  | .Add x y => exec_add_vx_vy vm x y
  | .Sub x y => exec_sub_vx_vy vm x y
  | .ShiftR x y => exec_shift_right vm x y
  | .SubN x y => exec_subn_vy_vx vm x y
  | .ShiftL x y => exec_shift_left vm x y
  | .SkipNeqVxVy x y => exec_skip_if_not_equal_vx_vy vm x y
  | .LoadI addr => exec_load_i vm addr
  | .JumpOffset addr => exec_jump_offset vm addr
  | .Rand x value => exec_rand vm x value
  | .Display x y rows => exec_display vm x y rows
  | .SkipIfKey x => exec_skip_if_key vm x
  | .SkipIfNotKey x => exec_skip_if_not_key vm x
  | .LoadDelay x => exec_load_delay vm x
  | .WaitForKey x => exec_wait_for_key vm x
  | .StoreDelay x => exec_store_delay vm x
  | .StoreSound x => exec_store_sound vm x
  | .AddI x => exec_add_i vm x
  | .LoadDigit x => exec_load_digit vm x
  | .Bcd x => exec_bcd vm x
  | .StoreRegisters x => exec_store_registers vm x
  | .LoadRegisters x => exec_load_registers vm x
  | .NoOp => .ok vm

/-- Single-step operation `Vm::tick`: a no-op while the wait flag is set,
otherwise fetch (advancing pc), decode, and dispatch. -/
def tick (vm : Vm) : StepResult :=
  if vm.is_waiting then .ok vm
  else
    match next_opcode vm with
    | (vm1, .error e) => .fault e vm1
    | (vm1, .ok raw) =>
      match tryFromU16 raw with
      | .error e => .fault e vm1
      | .ok opcode => execOpcode vm1 opcode

/-- Concrete freshly-zeroed engine state used to instantiate the theorems
below at explicit inputs. -/
def baseVm : Vm :=
  { ram := fun _ => 0
    pc := 0x200
    i_register := 0
    delay := 0
    sound := 0
    v_registers := fun _ => 0
    stack := []
    randomize := 0
    is_waiting := false
    vx_after_wait := 0
    display := fun _ => false
    keys := fun _ => false }

/-- Engine state about to execute the draw instruction 0xd012 (draw a 2-row
sprite at the anchor in V0, V1) with the index register at 4095, so the 2-byte
sprite read range 4095..4097 extends past the last valid address 4095. -/
def drawOobVm : Vm :=
  { baseVm with
      ram := fun a => if a = 0x200 then 0xd0 else if a = 0x201 then 0x12 else 0
      i_register := 4095 }

/-- Engine state about to execute the return instruction 0x00ee with an empty
call stack. -/
def retVm : Vm :=
  { baseVm with ram := fun a => if a = 0x201 then 0xee else 0 }

/-- Engine state suspended in wait-for-key with target register 3. -/
def waitVm : Vm :=
  { baseVm with is_waiting := true, vx_after_wait := 3 }

/-- Engine state with V0 = 7 and V1 = 9 for the arithmetic witnesses. -/
def arithVm : Vm :=
  { baseVm with v_registers := updFn (updFn baseVm.v_registers 0 7) 1 9 }

/-- Helper boolean check: the word decodes to the explicit no-op. -/
def isOkNoOp (w : Nat) : Bool :=
  match tryFromU16 w with
  | .ok .NoOp => true
  | _ => false

/-- Engine state with V0..V2 = 0xa, 0xb, 0xc and index register 0x300, the
register-block round-trip example of the spec. -/
def blockVm : Vm :=
  { baseVm with
      i_register := 0x300
      v_registers := updFn (updFn (updFn baseVm.v_registers 0 0xa) 1 0xb) 2 0xc }

/-- Engine state with the index register at 4095, one byte short of the end of
memory, for the partial-write fault witnesses. -/
def edgeVm : Vm :=
  { baseVm with i_register := 4095 }

/-- Row-major display index hit by sprite offset p = (row, col) drawn at
anchor (sx, sy): the u8 additions wrap modulo 256 and `put_pixel` wraps the
coordinates to the 64 × 32 grid. -/
def cellIdx (sx sy : Nat) (p : Nat × Nat) : Nat :=
  ((sy + p.1) % 256 % 32) * 64 + ((sx + p.2) % 256 % 64)

/-- Engine state holding the 8×4 sprite ff 81 81 ff at address 0 (where the
index register points) with V0 = 1, V1 = 0: the spec's double-draw example,
an 8×4 sprite drawn at (1, 0). -/
def spriteVm : Vm :=
  { baseVm with
      ram := fun a => if a = 0 then 0xff else if a = 1 then 0x81
        else if a = 2 then 0x81 else if a = 3 then 0xff else 0
      v_registers := updFn baseVm.v_registers 0 1 }

set_option maxRecDepth 4000 in
/-- Helper facts about the u8 bit operations of the shift handlers, proved by
exhausting the 256 byte values. -/
theorem byteOps (b : Nat) (hb : b < 256) :
    b &&& 1 = b % 2 ∧ b >>> 1 = b / 2 ∧ (b <<< 1) % 256 = b * 2 % 256 ∧
    (b &&& 128) >>> 7 = b / 128 := by
  revert hb
  revert b
  decide

/-- Helper fact: the Nat expression embedding `u8::overflowing_sub` agrees
with integer subtraction modulo 256. -/
theorem subWrap (a b : Nat) (ha : a < 256) (hb : b < 256) :
    (a + 256 - b % 256) % 256 = (((a : Int) - b) % 256).toNat := by
  omega

/-- Helper: a rom that passes the loader's (decimal) length check but still
overflows the 0x200-based copy range makes `Vm::new` panic. -/
theorem load_rom_pass_check (rom : List Nat) (h1 : rom.length ≤ 4096 - 200)
    (h2 : 0x200 + rom.length > 4096) : load_rom rom = .crash := by
  unfold load_rom Vm.new
  rw [if_neg (by omega), if_pos h2]

/-- Helper: a rom longer than the loader's (decimal) bound is rejected with
the oversized-image error. -/
theorem load_rom_reject (rom : List Nat) (h1 : rom.length > 4096 - 200) :
    load_rom rom = .error .InvalidRom := by
  unfold load_rom
  rw [if_pos h1]

/-- C1: the claim says `step()` never panics and that a draw-sprite whose
n-byte sprite read range starting at the index register extends past address
4095 returns the "invalid address" fault.  The code instead takes the
unchecked slice `self.ram[addr..addr + rows]` in `exec_display`, which panics:
on the concrete state `drawOobVm` (index register 4095, instruction 0xd012),
`tick` crashes rather than returning a fault value. -/
theorem c1_step_draw_out_of_range_crashes : tick drawOobVm = StepResult.crash := rfl

/-- C2: the claim says initialization fails with the oversized-image error
exactly when the rom exceeds 4096 − 0x200 = 3584 bytes and succeeds on any rom
of at most 3584 bytes.  The loader's bound in the source is the decimal
literal `4096 - 200` = 3896, so a 3585-byte rom (and even a 3896-byte rom)
passes the check and then crashes inside `Vm::new` on the slice copy, while
a 3897-byte rom does get the explicit error. -/
theorem c2_loader_accepts_oversized_rom :
    load_rom (List.replicate 3585 0) = LoadResult.crash ∧
    load_rom (List.replicate 3896 0) = LoadResult.crash ∧
    load_rom (List.replicate 3897 0) = LoadResult.error Error.InvalidRom := by
  refine ⟨load_rom_pass_check _ ?_ ?_, load_rom_pass_check _ ?_ ?_, load_rom_reject _ ?_⟩ <;>
    rw [List.length_replicate] <;> norm_num

/-- C3: on a state whose call stack is empty and whose pc points at the return
instruction 0x00ee, `tick` yields the EmptyStack fault and leaves pc at
pc + 2, the value the completed fetch gave it before the return attempt (the
failing `exec_return` changes nothing). -/
theorem c3_return_on_empty_stack (vm : Vm)
    (hw : vm.is_waiting = false) (hs : vm.stack = [])
    (hpc : vm.pc + 1 < 4096)
    (hb0 : vm.ram vm.pc = 0x00) (hb1 : vm.ram (vm.pc + 1) = 0xee) :
    tick vm = .fault .EmptyStack { vm with pc := vm.pc + 2 } := by
  have h1 : vm.pc < 4096 := by omega
  have h2 : vm.pc + 1 < 65536 := by omega
  have h3 : vm.pc + 1 + 1 < 65536 := by omega
  have hdec : tryFromU16 0xee = .ok .Ret := rfl
  simp only [tick, hw, Bool.false_eq_true, if_false, next_opcode, read_byte,
    h1, if_true, Nat.mod_eq_of_lt h2, hpc, Nat.mod_eq_of_lt h3, hb0, hb1, if_pos]
  norm_num
  rw [hdec]
  simp only [execOpcode, exec_return, hs]

/-- C3 witness: the concrete state `retVm` has an empty stack and 0x00ee at
pc = 0x200; `tick` faults with EmptyStack and pc ends at 0x202. -/
theorem c3_return_on_empty_stack_witness :
    tick retVm = .fault .EmptyStack { retVm with pc := retVm.pc + 2 } :=
  c3_return_on_empty_stack retVm rfl rfl (by norm_num [retVm, baseVm]) rfl rfl

/-- C5: subtract 8xy5 writes the wrapped difference Vx − Vy to Vx and then the
no-borrow flag (1 iff Vy ≤ Vx held before) to VF; subtract-reverse 8xy7 writes
Vy − Vx to Vx and then the no-borrow flag relative to Vy, Vx; in both cases
the flag write is last, so the final VF is always the flag, also when
x = 0xf. -/
theorem c5_subtract_flag_semantics (vm : Vm) (x y : Nat)
    (ha : vm.v_registers x < 256) (hb : vm.v_registers y < 256) :
    exec_sub_vx_vy vm x y = .ok { vm with v_registers :=
      (updFn (updFn vm.v_registers x
        (((vm.v_registers x : Int) - vm.v_registers y) % 256).toNat) 0xf
        (if vm.v_registers y ≤ vm.v_registers x then 1 else 0)) } ∧
    exec_subn_vy_vx vm x y = .ok { vm with v_registers :=
      (updFn (updFn vm.v_registers x
        (((vm.v_registers y : Int) - vm.v_registers x) % 256).toNat) 0xf
        (if vm.v_registers x ≤ vm.v_registers y then 1 else 0)) } ∧
    (∀ vm1, exec_sub_vx_vy vm x y = .ok vm1 →
      vm1.v_registers 0xf = (if vm.v_registers y ≤ vm.v_registers x then 1 else 0)) ∧
    (∀ vm1, exec_subn_vy_vx vm x y = .ok vm1 →
      vm1.v_registers 0xf = (if vm.v_registers x ≤ vm.v_registers y then 1 else 0)) := by
  have e1 := subWrap (vm.v_registers x) (vm.v_registers y) ha hb
  have e2 := subWrap (vm.v_registers y) (vm.v_registers x) hb ha
  have f1 : exec_sub_vx_vy vm x y = .ok { vm with v_registers :=
      (updFn (updFn vm.v_registers x
        (((vm.v_registers x : Int) - vm.v_registers y) % 256).toNat) 0xf
        (if vm.v_registers y ≤ vm.v_registers x then 1 else 0)) } := by
    simp only [exec_sub_vx_vy, e1]
    congr 3
    split
    · rw [if_neg (by omega)]
    · rw [if_pos (by omega)]
  have f2 : exec_subn_vy_vx vm x y = .ok { vm with v_registers :=
      (updFn (updFn vm.v_registers x
        (((vm.v_registers y : Int) - vm.v_registers x) % 256).toNat) 0xf
        (if vm.v_registers x ≤ vm.v_registers y then 1 else 0)) } := by
    simp only [exec_subn_vy_vx, e2]
    congr 3
    split
    · rw [if_neg (by omega)]
    · rw [if_pos (by omega)]
  refine ⟨f1, f2, ?_, ?_⟩
  · intro vm1 h
    rw [f1] at h
    cases h
    simp [updFn]
  · intro vm1 h
    rw [f2] at h
    cases h
    simp [updFn]

/-- C5 witness: instantiation at the state `arithVm` (V0 = 7, V1 = 9). -/
theorem c5_subtract_flag_semantics_witness :
    exec_sub_vx_vy arithVm 0 1 = .ok { arithVm with v_registers :=
      (updFn (updFn arithVm.v_registers 0
        (((arithVm.v_registers 0 : Int) - arithVm.v_registers 1) % 256).toNat) 0xf
        (if arithVm.v_registers 1 ≤ arithVm.v_registers 0 then 1 else 0)) } ∧
    exec_subn_vy_vx arithVm 0 1 = .ok { arithVm with v_registers :=
      (updFn (updFn arithVm.v_registers 0
        (((arithVm.v_registers 1 : Int) - arithVm.v_registers 0) % 256).toNat) 0xf
        (if arithVm.v_registers 0 ≤ arithVm.v_registers 1 then 1 else 0)) } ∧
    (∀ vm1, exec_sub_vx_vy arithVm 0 1 = .ok vm1 →
      vm1.v_registers 0xf = (if arithVm.v_registers 1 ≤ arithVm.v_registers 0 then 1 else 0)) ∧
    (∀ vm1, exec_subn_vy_vx arithVm 0 1 = .ok vm1 →
      vm1.v_registers 0xf = (if arithVm.v_registers 0 ≤ arithVm.v_registers 1 then 1 else 0)) :=
  c5_subtract_flag_semantics arithVm 0 1 (by norm_num [arithVm, baseVm, updFn])
    (by norm_num [arithVm, baseVm, updFn])

/-- C6: shift-right 8xy6 writes Vy >> 1 to Vx and then Vy's low bit to VF;
shift-left 8xyE writes (Vy << 1) mod 256 to Vx and then Vy's high bit to VF;
the shift source is Vy and the flag write is last, so the final VF is always
the flag. -/
theorem c6_shift_semantics (vm : Vm) (x y : Nat) (hb : vm.v_registers y < 256) :
    exec_shift_right vm x y = .ok { vm with v_registers :=
      (updFn (updFn vm.v_registers x (vm.v_registers y / 2)) 0xf (vm.v_registers y % 2)) } ∧
    exec_shift_left vm x y = .ok { vm with v_registers :=
      (updFn (updFn vm.v_registers x (vm.v_registers y * 2 % 256)) 0xf (vm.v_registers y / 128)) } ∧
    (∀ vm1, exec_shift_right vm x y = .ok vm1 →
      vm1.v_registers 0xf = vm.v_registers y % 2) ∧
    (∀ vm1, exec_shift_left vm x y = .ok vm1 →
      vm1.v_registers 0xf = vm.v_registers y / 128) := by
  obtain ⟨b1, b2, b3, b4⟩ := byteOps (vm.v_registers y) hb
  have f1 : exec_shift_right vm x y = .ok { vm with v_registers :=
      (updFn (updFn vm.v_registers x (vm.v_registers y / 2)) 0xf (vm.v_registers y % 2)) } := by
    simp only [exec_shift_right, b1, b2]
  have f2 : exec_shift_left vm x y = .ok { vm with v_registers :=
      (updFn (updFn vm.v_registers x (vm.v_registers y * 2 % 256)) 0xf (vm.v_registers y / 128)) } := by
    simp only [exec_shift_left, b3, b4]
  refine ⟨f1, f2, ?_, ?_⟩
  · intro vm1 h
    rw [f1] at h
    cases h
    simp [updFn]
  · intro vm1 h
    rw [f2] at h
    cases h
    simp [updFn]

/-- C6 witness: instantiation at the state `arithVm` (V1 = 9). -/
theorem c6_shift_semantics_witness :
    exec_shift_right arithVm 0 1 = .ok { arithVm with v_registers :=
      (updFn (updFn arithVm.v_registers 0 (arithVm.v_registers 1 / 2)) 0xf (arithVm.v_registers 1 % 2)) } ∧
    exec_shift_left arithVm 0 1 = .ok { arithVm with v_registers :=
      (updFn (updFn arithVm.v_registers 0 (arithVm.v_registers 1 * 2 % 256)) 0xf (arithVm.v_registers 1 / 128)) } ∧
    (∀ vm1, exec_shift_right arithVm 0 1 = .ok vm1 →
      vm1.v_registers 0xf = arithVm.v_registers 1 % 2) ∧
    (∀ vm1, exec_shift_left arithVm 0 1 = .ok vm1 →
      vm1.v_registers 0xf = arithVm.v_registers 1 / 128) :=
  c6_shift_semantics arithVm 0 1 (by norm_num [arithVm, baseVm, updFn])

/-- C8: while the wait-for-key flag is set `tick` returns success with the
state unchanged; a key-down `set_key` on a valid key clears the flag and
writes the key index into the register recorded when the wait began; a key-up
`set_key` while waiting leaves the flag set; `tick_timers` never touches the
flag. -/
theorem c8_wait_for_key_protocol (vm : Vm) (k : Nat) (hk : k < 16)
    (hw : vm.is_waiting = true) :
    tick vm = .ok vm ∧
    set_key vm k true = ({ vm with
        keys := updFn vm.keys k true
        is_waiting := false
        v_registers := updFn vm.v_registers vm.vx_after_wait k }, none) ∧
    (set_key vm k false).1.is_waiting = true ∧
    (set_key vm k false).2 = none ∧
    (tick_timers vm).is_waiting = true := by
  refine ⟨?_, ?_, ?_, ?_, ?_⟩
  · simp [tick, hw]
  · simp [set_key, hk, hw]
  · simp [set_key, hk, hw]
  · simp [set_key, hk]
  · simp [tick_timers, hw]

/-- C8 witness: instantiation at the waiting state `waitVm` (target register
3) and key 0xa. -/
theorem c8_wait_for_key_protocol_witness :
    tick waitVm = .ok waitVm ∧
    set_key waitVm 0xa true = ({ waitVm with
        keys := updFn waitVm.keys 0xa true
        is_waiting := false
        v_registers := updFn waitVm.v_registers waitVm.vx_after_wait 0xa }, none) ∧
    (set_key waitVm 0xa false).1.is_waiting = true ∧
    (set_key waitVm 0xa false).2 = none ∧
    (tick_timers waitVm).is_waiting = true :=
  c8_wait_for_key_protocol waitVm 0xa (by norm_num) rfl

/-- Helper enumeration of a nibble value. -/
theorem nat_le15_cases (n : Nat) (h : n ≤ 15) :
    n = 0 ∨ n = 1 ∨ n = 2 ∨ n = 3 ∨ n = 4 ∨ n = 5 ∨ n = 6 ∨ n = 7 ∨
    n = 8 ∨ n = 9 ∨ n = 10 ∨ n = 11 ∨ n = 12 ∨ n = 13 ∨ n = 14 ∨ n = 15 := by
  omega

/-- Helper bridge from the boolean check to the decoder equation. -/
theorem isOkNoOp_eq (w : Nat) (h : isOkNoOp w = true) :
    tryFromU16 w = .ok .NoOp := by
  unfold isOkNoOp at h
  cases he : tryFromU16 w with
  | ok op =>
    rw [he] at h
    cases op <;> simp_all
  | error e =>
    rw [he] at h
    simp at h

set_option maxHeartbeats 8000000 in
set_option synthInstance.maxSize 512 in
/-- Helper: every word of the 0x0 family other than 0x0e0 and 0x0ee decodes
to the explicit no-op, by enumeration of the three low nibbles. -/
theorem decode_zero_family_aux : ∀ b < 16, ∀ c < 16, ∀ d < 16,
    ((b = 0 ∧ c = 14 ∧ d = 0) ∨ (b = 0 ∧ c = 14 ∧ d = 14)) ∨
    isOkNoOp (b * 256 + c * 16 + d) = true := by
  decide

set_option maxHeartbeats 8000000 in
/-- C7: the decoder is a total function on 16-bit words: every word yields
exactly one tagged instruction value or the explicit decode fault carrying the
original word, and every word of the 0x0 family whose low three nibbles are
not 0x0e0/0x0ee decodes to the explicit no-op. -/
theorem c7_decoder_total (w : Nat) (hw : w < 65536) :
    ((∃ op, tryFromU16 w = .ok op) ∨ tryFromU16 w = .error (.InvalidOpcode w)) ∧
    (w < 4096 → w ≠ 0xe0 → w ≠ 0xee → tryFromU16 w = .ok .NoOp) := by
  constructor
  · have hA : (w &&& 61440) >>> 12 ≤ 15 := by
      have h := Nat.and_le_right (n := w) (m := 61440)
      rw [Nat.shiftRight_eq_div_pow]
      omega
    have hB : (w &&& 3840) >>> 8 ≤ 15 := by
      have h := Nat.and_le_right (n := w) (m := 3840)
      rw [Nat.shiftRight_eq_div_pow]
      omega
    have hC : (w &&& 240) >>> 4 ≤ 15 := by
      have h := Nat.and_le_right (n := w) (m := 240)
      rw [Nat.shiftRight_eq_div_pow]
      omega
    have hD : w &&& 15 ≤ 15 := Nat.and_le_right
    unfold tryFromU16
    rcases nat_le15_cases _ hA with h1|h1|h1|h1|h1|h1|h1|h1|h1|h1|h1|h1|h1|h1|h1|h1
    · rw [h1]
      rcases nat_le15_cases _ hB with h2|h2|h2|h2|h2|h2|h2|h2|h2|h2|h2|h2|h2|h2|h2|h2
      all_goals try (rw [h2]; exact Or.inl ⟨_, rfl⟩)
      rcases nat_le15_cases _ hC with h3|h3|h3|h3|h3|h3|h3|h3|h3|h3|h3|h3|h3|h3|h3|h3
      all_goals try (rw [h2, h3]; exact Or.inl ⟨_, rfl⟩)
      rcases nat_le15_cases _ hD with h4|h4|h4|h4|h4|h4|h4|h4|h4|h4|h4|h4|h4|h4|h4|h4
      all_goals (rw [h2, h3, h4]; exact Or.inl ⟨_, rfl⟩)
    · rw [h1]
      exact Or.inl ⟨_, rfl⟩
    · rw [h1]
      exact Or.inl ⟨_, rfl⟩
    · rw [h1]
      exact Or.inl ⟨_, rfl⟩
    · rw [h1]
      exact Or.inl ⟨_, rfl⟩
    · rw [h1]
      rcases nat_le15_cases _ hD with h4|h4|h4|h4|h4|h4|h4|h4|h4|h4|h4|h4|h4|h4|h4|h4
      all_goals rw [h4]
      all_goals first
        | exact Or.inr rfl
        | exact Or.inl ⟨_, rfl⟩
    · rw [h1]
      exact Or.inl ⟨_, rfl⟩
    · rw [h1]
      exact Or.inl ⟨_, rfl⟩
    · rw [h1]
      rcases nat_le15_cases _ hD with h4|h4|h4|h4|h4|h4|h4|h4|h4|h4|h4|h4|h4|h4|h4|h4
      all_goals rw [h4]
      all_goals first
        | exact Or.inr rfl
        | exact Or.inl ⟨_, rfl⟩
    · rw [h1]
      rcases nat_le15_cases _ hD with h4|h4|h4|h4|h4|h4|h4|h4|h4|h4|h4|h4|h4|h4|h4|h4
      all_goals rw [h4]
      all_goals first
        | exact Or.inr rfl
        | exact Or.inl ⟨_, rfl⟩
    · rw [h1]
      exact Or.inl ⟨_, rfl⟩
    · rw [h1]
      exact Or.inl ⟨_, rfl⟩
    · rw [h1]
      exact Or.inl ⟨_, rfl⟩
    · rw [h1]
      exact Or.inl ⟨_, rfl⟩
    · rw [h1]
      rcases nat_le15_cases _ hC with h3|h3|h3|h3|h3|h3|h3|h3|h3|h3|h3|h3|h3|h3|h3|h3
      all_goals rcases nat_le15_cases _ hD with h4|h4|h4|h4|h4|h4|h4|h4|h4|h4|h4|h4|h4|h4|h4|h4
      all_goals rw [h3, h4]
      all_goals first
        | exact Or.inr rfl
        | exact Or.inl ⟨_, rfl⟩
    · rw [h1]
      rcases nat_le15_cases _ hC with h3|h3|h3|h3|h3|h3|h3|h3|h3|h3|h3|h3|h3|h3|h3|h3
      all_goals rcases nat_le15_cases _ hD with h4|h4|h4|h4|h4|h4|h4|h4|h4|h4|h4|h4|h4|h4|h4|h4
      all_goals rw [h3, h4]
      all_goals first
        | exact Or.inr rfl
        | exact Or.inl ⟨_, rfl⟩
  · intro h1 h2 h3
    have hsplit : w = w / 256 * 256 + w / 16 % 16 * 16 + w % 16 := by omega
    have hz := decode_zero_family_aux (w / 256) (by omega) (w / 16 % 16) (by omega)
      (w % 16) (by omega)
    rw [← hsplit] at hz
    rcases hz with ((⟨hb, hc, hd⟩ | ⟨hb, hc, hd⟩) | hok)
    · exact absurd (by omega) h2
    · exact absurd (by omega) h3
    · exact isOkNoOp_eq w hok

/-- C7 witness: instantiation at the word 0x0abc, a 0x0-family word whose low
nibbles are not 0xe0/0xee. -/
theorem c7_decoder_total_witness :
    ((∃ op, tryFromU16 0x0abc = .ok op) ∨
      tryFromU16 0x0abc = .error (.InvalidOpcode 0x0abc)) ∧
    (0x0abc < 4096 → 0x0abc ≠ 0xe0 → 0x0abc ≠ 0xee →
      tryFromU16 0x0abc = .ok .NoOp) :=
  c7_decoder_total 0x0abc (by norm_num)


/-- Helper: the store-register loop with the whole write range in bounds
succeeds, writes registers start, start+1, ... to consecutive addresses and
advances the index register once per byte. -/
theorem storeRegsAux_ok (n : Nat) : ∀ (start : Nat) (vm : Vm),
    vm.i_register + n ≤ 4096 →
    storeRegsAux start n vm = .ok { vm with
      ram := (fun a => if vm.i_register ≤ a ∧ a < vm.i_register + n
        then vm.v_registers (start + (a - vm.i_register)) else vm.ram a)
      i_register := vm.i_register + n } := by
  induction n with
  | zero =>
    intro start vm h
    have hram : (fun a => if vm.i_register ≤ a ∧ a < vm.i_register + 0
        then vm.v_registers (start + (a - vm.i_register)) else vm.ram a) = vm.ram := by
      funext a
      rw [if_neg (by omega)]
    rw [storeRegsAux, hram]
    rfl
  | succ m ih =>
    intro start vm h
    have hi : vm.i_register < 4096 := by omega
    have hiw : (vm.i_register + 1) % 65536 = vm.i_register + 1 :=
      Nat.mod_eq_of_lt (by omega)
    rw [storeRegsAux, if_pos hi, hiw]
    rw [ih (start + 1) _ (by simpa using (by omega : vm.i_register + 1 + m ≤ 4096))]
    congr 1
    simp only [Vm.mk.injEq, and_true, true_and]
    refine ⟨?_, by omega⟩
    funext a
    by_cases h1 : vm.i_register + 1 ≤ a ∧ a < vm.i_register + 1 + m
    · rw [if_pos h1, if_pos (by omega)]
      congr 1
      omega
    · rw [if_neg h1]
      by_cases h2 : vm.i_register ≤ a ∧ a < vm.i_register + (m + 1)
      · rw [if_pos h2]
        have ha : a = vm.i_register := by omega
        subst ha
        simp [updFn]
      · rw [if_neg h2, updFn, if_neg (by omega)]

/-- Helper: the load-register loop with the whole read range in bounds
succeeds, loads consecutive bytes into registers start, start+1, ... and
advances the index register once per byte. -/
theorem loadRegsAux_ok (n : Nat) : ∀ (start : Nat) (vm : Vm),
    vm.i_register + n ≤ 4096 →
    loadRegsAux start n vm = .ok { vm with
      v_registers := (fun k => if start ≤ k ∧ k < start + n
        then vm.ram (vm.i_register + (k - start)) else vm.v_registers k)
      i_register := vm.i_register + n } := by
  induction n with
  | zero =>
    intro start vm h
    have hreg : (fun k => if start ≤ k ∧ k < start + 0
        then vm.ram (vm.i_register + (k - start)) else vm.v_registers k) = vm.v_registers := by
      funext k
      rw [if_neg (by omega)]
    rw [loadRegsAux, hreg]
    rfl
  | succ m ih =>
    intro start vm h
    have hi : vm.i_register < 4096 := by omega
    have hiw : (vm.i_register + 1) % 65536 = vm.i_register + 1 :=
      Nat.mod_eq_of_lt (by omega)
    rw [loadRegsAux, if_pos hi, hiw]
    rw [ih (start + 1) _ (by simpa using (by omega : vm.i_register + 1 + m ≤ 4096))]
    congr 1
    simp only [Vm.mk.injEq, and_true, true_and]
    refine ⟨by omega, ?_⟩
    funext k
    by_cases h1 : start + 1 ≤ k ∧ k < start + 1 + m
    · rw [if_pos h1, if_pos (by omega)]
      congr 1
      omega
    · rw [if_neg h1]
      by_cases h2 : start ≤ k ∧ k < start + (m + 1)
      · rw [if_pos h2]
        have hk : k = start := by omega
        subst hk
        simp [updFn]
      · rw [if_neg h2, updFn, if_neg (by omega)]

/-- Helper: the store-register loop whose write range crosses the end of
memory faults at address 4096, keeping the writes and index-register
increments already made. -/
theorem storeRegsAux_fault (n : Nat) : ∀ (start : Nat) (vm : Vm),
    vm.i_register < 4096 → 4096 < vm.i_register + n →
    storeRegsAux start n vm = .fault (.InvalidAddress 4096) { vm with
      ram := (fun a => if vm.i_register ≤ a ∧ a < 4096
        then vm.v_registers (start + (a - vm.i_register)) else vm.ram a)
      i_register := 4096 } := by
  induction n with
  | zero =>
    intro start vm h1 h2
    omega
  | succ m ih =>
    intro start vm h1 h2
    have hiw : (vm.i_register + 1) % 65536 = vm.i_register + 1 :=
      Nat.mod_eq_of_lt (by omega)
    rw [storeRegsAux, if_pos h1, hiw]
    by_cases hcase : vm.i_register + 1 < 4096
    · rw [ih (start + 1) _ (by simpa using hcase) (by simpa using (by omega : 4096 < vm.i_register + 1 + m))]
      congr 1
      simp only [Vm.mk.injEq, and_true, true_and]
      funext a
      by_cases ha1 : vm.i_register + 1 ≤ a ∧ a < 4096
      · rw [if_pos ha1, if_pos (by omega)]
        congr 1
        omega
      · rw [if_neg ha1]
        by_cases ha2 : vm.i_register ≤ a ∧ a < 4096
        · rw [if_pos ha2]
          have ha : a = vm.i_register := by omega
          subst ha
          simp [updFn]
        · rw [if_neg ha2, updFn, if_neg (by omega)]
    · have h4096 : vm.i_register + 1 = 4096 := by omega
      match m, (by omega : 1 ≤ m) with
      | k + 1, _ =>
        rw [storeRegsAux, if_neg (show ¬(vm.i_register + 1 < 4096) by omega)]
        rw [h4096]
        congr 1
        simp only [Vm.mk.injEq, and_true, true_and]
        funext a
        by_cases ha2 : vm.i_register ≤ a ∧ a < 4096
        · have ha : a = vm.i_register := by omega
          subst ha
          rw [if_pos ha2]
          simp [updFn]
        · rw [if_neg ha2, updFn, if_neg (by omega)]

/-- Helper interface form of `storeRegsAux_ok` for the Fx55 handler. -/
theorem exec_store_registers_ok (vm : Vm) (x : Nat)
    (hb : vm.i_register + x + 1 ≤ 4096) :
    ∃ vm1, exec_store_registers vm x = .ok vm1 ∧
      vm1.i_register = vm.i_register + x + 1 ∧
      (∀ a, vm1.ram a = if vm.i_register ≤ a ∧ a < vm.i_register + x + 1
        then vm.v_registers (a - vm.i_register) else vm.ram a) ∧
      vm1.v_registers = vm.v_registers ∧ vm1.pc = vm.pc := by
  refine ⟨_, storeRegsAux_ok (x + 1) 0 vm (by omega), ?_, ?_, rfl, rfl⟩
  · show vm.i_register + (x + 1) = vm.i_register + x + 1
    omega
  · intro a
    show (if vm.i_register ≤ a ∧ a < vm.i_register + (x + 1)
      then vm.v_registers (0 + (a - vm.i_register)) else vm.ram a) = _
    by_cases ha : vm.i_register ≤ a ∧ a < vm.i_register + (x + 1)
    · rw [if_pos ha, if_pos (by omega)]
      congr 1
      omega
    · rw [if_neg ha, if_neg (by omega)]

/-- Helper interface form of `loadRegsAux_ok` for the Fx65 handler. -/
theorem exec_load_registers_ok (vm : Vm) (x : Nat)
    (hb : vm.i_register + x + 1 ≤ 4096) :
    ∃ vm2, exec_load_registers vm x = .ok vm2 ∧
      vm2.i_register = vm.i_register + x + 1 ∧
      (∀ k, vm2.v_registers k = if k < x + 1
        then vm.ram (vm.i_register + k) else vm.v_registers k) ∧
      vm2.ram = vm.ram ∧ vm2.pc = vm.pc := by
  refine ⟨_, loadRegsAux_ok (x + 1) 0 vm (by omega), ?_, ?_, rfl, rfl⟩
  · show vm.i_register + (x + 1) = vm.i_register + x + 1
    omega
  · intro k
    show (if 0 ≤ k ∧ k < 0 + (x + 1)
      then vm.ram (vm.i_register + (k - 0)) else vm.v_registers k) = _
    by_cases hk : k < x + 1
    · rw [if_pos (by omega), if_pos hk]
      simp
    · rw [if_neg (by omega), if_neg hk]

/-- Helper interface form of `storeRegsAux_fault` for the Fx55 handler. -/
theorem exec_store_registers_fault (vm : Vm) (x : Nat)
    (h1 : vm.i_register < 4096) (h2 : 4096 < vm.i_register + x + 1) :
    ∃ vmf, exec_store_registers vm x = .fault (.InvalidAddress 4096) vmf ∧
      vmf.i_register = 4096 ∧
      (∀ a, vmf.ram a = if vm.i_register ≤ a ∧ a < 4096
        then vm.v_registers (a - vm.i_register) else vm.ram a) ∧
      vmf.v_registers = vm.v_registers ∧ vmf.pc = vm.pc := by
  refine ⟨_, storeRegsAux_fault (x + 1) 0 vm h1 (by omega), rfl, ?_, rfl, rfl⟩
  intro a
  show (if vm.i_register ≤ a ∧ a < 4096
    then vm.v_registers (0 + (a - vm.i_register)) else vm.ram a) = _
  by_cases ha : vm.i_register ≤ a ∧ a < 4096
  · rw [if_pos ha, if_pos ha]
    congr 1
    omega
  · rw [if_neg ha, if_neg ha]

/-- C9: store-register-block Fx55 with the range in bounds writes V0..=Vx to
memory at i..i+x leaving the index register at i+x+1 and everything else (all
registers, memory outside the range, pc) unchanged; resetting the index
register to i and executing load-register-block Fx65 then restores V0..=Vx to
the stored values (the whole register file equals the original), leaves the
index register at i+x+1 again, and changes no memory. -/
theorem c9_register_block_roundtrip (vm : Vm) (x i : Nat) (hx : x < 16) (hi : vm.i_register = i)
    (hb : i + x + 1 ≤ 4096) :
    ∃ vm1 vm2, exec_store_registers vm x = .ok vm1 ∧
      vm1.i_register = i + x + 1 ∧
      (∀ k, k ≤ x → vm1.ram (i + k) = vm.v_registers k) ∧
      (∀ a, a < i ∨ i + x + 1 ≤ a → vm1.ram a = vm.ram a) ∧
      vm1.v_registers = vm.v_registers ∧ vm1.pc = vm.pc ∧
      exec_load_registers { vm1 with i_register := i } x = .ok vm2 ∧
      vm2.i_register = i + x + 1 ∧
      vm2.v_registers = vm.v_registers ∧
      vm2.ram = vm1.ram ∧ vm2.pc = vm.pc := by
  subst hi
  obtain ⟨vm1, e1, hi1, hram1, hv1, hpc1⟩ := exec_store_registers_ok vm x hb
  obtain ⟨vm2, e2, hi2, hv2, hram2, hpc2⟩ :=
    exec_load_registers_ok { vm1 with i_register := vm.i_register } x
      (show vm.i_register + x + 1 ≤ 4096 from hb)
  refine ⟨vm1, vm2, e1, hi1, ?_, ?_, hv1, hpc1, e2, hi2, ?_, hram2, hpc2.trans hpc1⟩
  · intro k hk
    rw [hram1, if_pos (by omega)]
    congr 1
    omega
  · intro a ha
    rw [hram1, if_neg (by omega)]
  · funext k
    rw [hv2]
    by_cases hk : k < x + 1
    · rw [if_pos hk]
      show vm1.ram (vm.i_register + k) = vm.v_registers k
      rw [hram1, if_pos (by omega)]
      congr 1
      omega
    · rw [if_neg hk]
      show vm1.v_registers k = vm.v_registers k
      rw [hv1]

/-- C10: multi-byte memory writers are not atomic on fault.  Store-register
-block Fx55 whose range crosses address 4095 faults with InvalidAddress 4096
but keeps the bytes already written (addresses i..4095 hold V0.., the rest of
memory is untouched) and keeps the index-register increments (it ends at
4096 = i + j).  BCD Fx33 at i = 4094 faults after writing the hundreds and
tens digits, and at i = 4095 after writing the hundreds digit, the written
bytes remaining in memory. -/
theorem c10_partial_writes_persist (vm : Vm) (x : Nat) (hx : x < 16) :
    (vm.i_register < 4096 → 4096 < vm.i_register + x + 1 →
      ∃ vmf, exec_store_registers vm x = .fault (.InvalidAddress 4096) vmf ∧
        vmf.i_register = 4096 ∧
        (∀ a, vm.i_register ≤ a → a < 4096 →
          vmf.ram a = vm.v_registers (a - vm.i_register)) ∧
        (∀ a, a < vm.i_register ∨ 4096 ≤ a → vmf.ram a = vm.ram a)) ∧
    (vm.i_register = 4094 →
      ∃ vmf, exec_bcd vm x = .fault (.InvalidAddress 4096) vmf ∧
        vmf.ram = updFn (updFn vm.ram 4094 (vm.v_registers x / 100)) 4095
          (vm.v_registers x / 10 % 10) ∧
        vmf.i_register = 4094) ∧
    (vm.i_register = 4095 →
      ∃ vmf, exec_bcd vm x = .fault (.InvalidAddress 4096) vmf ∧
        vmf.ram = updFn vm.ram 4095 (vm.v_registers x / 100) ∧
        vmf.i_register = 4095) := by
  refine ⟨?_, ?_, ?_⟩
  · intro h1 h2
    obtain ⟨vmf, ef, hif, hramf, hvf, hpcf⟩ := exec_store_registers_fault vm x h1 h2
    refine ⟨vmf, ef, hif, ?_, ?_⟩
    · intro a ha1 ha2
      rw [hramf, if_pos ⟨ha1, ha2⟩]
    · intro a ha
      rw [hramf, if_neg (by omega)]
  · intro hi
    have htens : (vm.v_registers x - vm.v_registers x / 100 * 100) / 10 =
        vm.v_registers x / 10 % 10 := by omega
    have heq : exec_bcd vm x = .fault (.InvalidAddress 4096)
        { vm with ram := (updFn (updFn vm.ram 4094 (vm.v_registers x / 100)) 4095
            ((vm.v_registers x - vm.v_registers x / 100 * 100) / 10)) } := by
      simp only [exec_bcd, write_byte_at, hi]
      norm_num
    rw [htens] at heq
    exact ⟨_, heq, rfl, hi⟩
  · intro hi
    have heq : exec_bcd vm x = .fault (.InvalidAddress 4096)
        { vm with ram := updFn vm.ram 4095 (vm.v_registers x / 100) } := by
      simp only [exec_bcd, write_byte_at, hi]
      norm_num
    exact ⟨_, heq, rfl, hi⟩

/-- C9 witness: instantiation at `blockVm` (V0..V2 = 0xa, 0xb, 0xc,
i = 0x300) with x = 2, the spec's round-trip example. -/
theorem c9_register_block_roundtrip_witness :
    ∃ vm1 vm2, exec_store_registers blockVm 2 = .ok vm1 ∧
      vm1.i_register = 0x300 + 2 + 1 ∧
      (∀ k, k ≤ 2 → vm1.ram (0x300 + k) = blockVm.v_registers k) ∧
      (∀ a, a < 0x300 ∨ 0x300 + 2 + 1 ≤ a → vm1.ram a = blockVm.ram a) ∧
      vm1.v_registers = blockVm.v_registers ∧ vm1.pc = blockVm.pc ∧
      exec_load_registers { vm1 with i_register := 0x300 } 2 = .ok vm2 ∧
      vm2.i_register = 0x300 + 2 + 1 ∧
      vm2.v_registers = blockVm.v_registers ∧
      vm2.ram = vm1.ram ∧ vm2.pc = blockVm.pc :=
  c9_register_block_roundtrip blockVm 2 0x300 (by norm_num) rfl (by norm_num)

/-- C10 witness: instantiation at `edgeVm` (i = 4095) with x = 2: the store
part and the BCD-at-4095 part have true antecedents there. -/
theorem c10_partial_writes_persist_witness :
    (edgeVm.i_register < 4096 → 4096 < edgeVm.i_register + 2 + 1 →
      ∃ vmf, exec_store_registers edgeVm 2 = .fault (.InvalidAddress 4096) vmf ∧
        vmf.i_register = 4096 ∧
        (∀ a, edgeVm.i_register ≤ a → a < 4096 →
          vmf.ram a = edgeVm.v_registers (a - edgeVm.i_register)) ∧
        (∀ a, a < edgeVm.i_register ∨ 4096 ≤ a → vmf.ram a = edgeVm.ram a)) ∧
    (edgeVm.i_register = 4094 →
      ∃ vmf, exec_bcd edgeVm 2 = .fault (.InvalidAddress 4096) vmf ∧
        vmf.ram = updFn (updFn edgeVm.ram 4094 (edgeVm.v_registers 2 / 100)) 4095
          (edgeVm.v_registers 2 / 10 % 10) ∧
        vmf.i_register = 4094) ∧
    (edgeVm.i_register = 4095 →
      ∃ vmf, exec_bcd edgeVm 2 = .fault (.InvalidAddress 4096) vmf ∧
        vmf.ram = updFn edgeVm.ram 4095 (edgeVm.v_registers 2 / 100) ∧
        vmf.i_register = 4095) :=
  c10_partial_writes_persist edgeVm 2 (by norm_num)


/-- Helper: one loop iteration on a set sprite bit over a lit cell toggles
the cell off and sets VF. -/
theorem drawPair_of_bit_lit (ramSnap : Nat → Nat) (addr sx sy : Nat) (vm : Vm)
    (p : Nat × Nat) (hbit : ramSnap (addr + p.1) &&& (0x80 >>> p.2) ≠ 0)
    (hd : vm.display (cellIdx sx sy p) = true) :
    drawPair ramSnap addr sx sy vm p = { vm with
      display := updFn vm.display (cellIdx sx sy p) (!vm.display (cellIdx sx sy p))
      v_registers := updFn vm.v_registers 0xf 1 } := by
  rw [drawPair, if_pos hbit]
  show (if (put_pixel vm ((sx + p.2) % 256) ((sy + p.1) % 256)).2 then _ else _) = _
  rw [put_pixel]
  show (if vm.display (cellIdx sx sy p) then _ else _) = _
  rw [if_pos hd]
  rfl

/-- Helper: one loop iteration on a set sprite bit over an unlit cell lights
the cell and leaves the registers alone. -/
theorem drawPair_of_bit_unlit (ramSnap : Nat → Nat) (addr sx sy : Nat) (vm : Vm)
    (p : Nat × Nat) (hbit : ramSnap (addr + p.1) &&& (0x80 >>> p.2) ≠ 0)
    (hd : vm.display (cellIdx sx sy p) = false) :
    drawPair ramSnap addr sx sy vm p = { vm with
      display := updFn vm.display (cellIdx sx sy p) (!vm.display (cellIdx sx sy p)) } := by
  rw [drawPair, if_pos hbit]
  show (if (put_pixel vm ((sx + p.2) % 256) ((sy + p.1) % 256)).2 then _ else _) = _
  rw [put_pixel]
  show (if vm.display (cellIdx sx sy p) then _ else _) = _
  rw [if_neg (by simp [hd])]
  rfl

/-- Helper: one loop iteration on a clear sprite bit changes nothing. -/
theorem drawPair_of_not_bit (ramSnap : Nat → Nat) (addr sx sy : Nat) (vm : Vm)
    (p : Nat × Nat) (hbit : ¬(ramSnap (addr + p.1) &&& (0x80 >>> p.2) ≠ 0)) :
    drawPair ramSnap addr sx sy vm p = vm := by
  rw [drawPair, if_neg hbit]

/-- Helper: characterization of the sprite-drawing fold over any list of
(row, col) offsets that hit pairwise distinct display cells: a cell ends
toggled exactly when some listed offset with a set sprite bit maps to it, VF
ends 1 exactly when some such offset hits a cell that was lit at the start,
and nothing else changes. -/
theorem drawLoop_char (ramSnap : Nat → Nat) (addr sx sy : Nat) :
    ∀ (L : List (Nat × Nat)) (vm : Vm),
    L.Pairwise (fun p q => cellIdx sx sy p ≠ cellIdx sx sy q) →
    (∀ j, (L.foldl (drawPair ramSnap addr sx sy) vm).display j =
      (if ∃ p ∈ L, ramSnap (addr + p.1) &&& (0x80 >>> p.2) ≠ 0 ∧ cellIdx sx sy p = j
       then !(vm.display j) else vm.display j)) ∧
    ((L.foldl (drawPair ramSnap addr sx sy) vm).v_registers 0xf =
      (if ∃ p ∈ L, ramSnap (addr + p.1) &&& (0x80 >>> p.2) ≠ 0 ∧
          vm.display (cellIdx sx sy p) = true
       then 1 else vm.v_registers 0xf)) ∧
    (∀ k, k ≠ 0xf → (L.foldl (drawPair ramSnap addr sx sy) vm).v_registers k =
      vm.v_registers k) ∧
    (L.foldl (drawPair ramSnap addr sx sy) vm).ram = vm.ram ∧
    (L.foldl (drawPair ramSnap addr sx sy) vm).pc = vm.pc ∧
    (L.foldl (drawPair ramSnap addr sx sy) vm).i_register = vm.i_register := by
  intro L
  induction L with
  | nil =>
    intro vm hpw
    refine ⟨?_, ?_, fun k hk => rfl, rfl, rfl, rfl⟩
    · intro j
      rw [if_neg (by simp)]
      rfl
    · rw [if_neg (by simp)]
      rfl
  | cons p T ih =>
    intro vm hpw
    rw [List.pairwise_cons] at hpw
    obtain ⟨hhead, htail⟩ := hpw
    rw [List.foldl_cons]
    by_cases hbit : ramSnap (addr + p.1) &&& (0x80 >>> p.2) ≠ 0
    · have hnotT : ¬(∃ q ∈ T, ramSnap (addr + q.1) &&& (0x80 >>> q.2) ≠ 0 ∧
          cellIdx sx sy q = cellIdx sx sy p) := by
        rintro ⟨q, hqT, hqbit, hqidx⟩
        exact hhead q hqT hqidx.symm
      by_cases hd : vm.display (cellIdx sx sy p) = true
      · rw [drawPair_of_bit_lit ramSnap addr sx sy vm p hbit hd]
        obtain ⟨ihd, ihv, ihk, ihram, ihpc, ihi⟩ := ih
          { vm with
            display := updFn vm.display (cellIdx sx sy p) (!vm.display (cellIdx sx sy p))
            v_registers := updFn vm.v_registers 0xf 1 } htail
        refine ⟨?_, ?_, ?_, ihram, ihpc, ihi⟩
        · intro j
          rw [ihd j]
          by_cases hj : j = cellIdx sx sy p
          · subst hj
            rw [if_neg hnotT, if_pos ⟨p, List.mem_cons_self p T, hbit, rfl⟩]
            show updFn vm.display (cellIdx sx sy p) (!vm.display (cellIdx sx sy p))
              (cellIdx sx sy p) = !vm.display (cellIdx sx sy p)
            rw [updFn, if_pos rfl]
          · have hdisp : updFn vm.display (cellIdx sx sy p)
                (!vm.display (cellIdx sx sy p)) j = vm.display j := by
              rw [updFn, if_neg hj]
            by_cases hex : ∃ q ∈ T, ramSnap (addr + q.1) &&& (0x80 >>> q.2) ≠ 0 ∧
                cellIdx sx sy q = j
            · have hCons : ∃ q ∈ p :: T, ramSnap (addr + q.1) &&& (0x80 >>> q.2) ≠ 0 ∧
                  cellIdx sx sy q = j := by
                obtain ⟨q, hqT, hb, hi⟩ := hex
                exact ⟨q, List.mem_cons_of_mem p hqT, hb, hi⟩
              rw [if_pos hex, if_pos hCons]
              show (!(updFn vm.display (cellIdx sx sy p)
                (!vm.display (cellIdx sx sy p)) j)) = (!(vm.display j))
              rw [hdisp]
            · have hCons : ¬(∃ q ∈ p :: T, ramSnap (addr + q.1) &&& (0x80 >>> q.2) ≠ 0 ∧
                  cellIdx sx sy q = j) := by
                rintro ⟨q, hqC, hb, hi⟩
                rcases List.mem_cons.mp hqC with rfl | hqT
                · exact hj (hi ▸ rfl)
                · exact hex ⟨q, hqT, hb, hi⟩
              rw [if_neg hex, if_neg hCons]
              exact hdisp
        · rw [ihv]
          have hCons : ∃ q ∈ p :: T, ramSnap (addr + q.1) &&& (0x80 >>> q.2) ≠ 0 ∧
              vm.display (cellIdx sx sy q) = true :=
            ⟨p, List.mem_cons_self p T, hbit, hd⟩
          rw [if_pos hCons]
          by_cases hex : ∃ q ∈ T, ramSnap (addr + q.1) &&& (0x80 >>> q.2) ≠ 0 ∧
              updFn vm.display (cellIdx sx sy p) (!vm.display (cellIdx sx sy p))
                (cellIdx sx sy q) = true
          · rw [if_pos hex]
          · rw [if_neg hex]
            show updFn vm.v_registers 0xf 1 0xf = 1
            rw [updFn, if_pos rfl]
        · intro k hk
          rw [ihk k hk]
          show updFn vm.v_registers 0xf 1 k = vm.v_registers k
          rw [updFn, if_neg hk]
      · have hdf : vm.display (cellIdx sx sy p) = false := by
          revert hd
          cases vm.display (cellIdx sx sy p) <;> simp
        rw [drawPair_of_bit_unlit ramSnap addr sx sy vm p hbit hdf]
        obtain ⟨ihd, ihv, ihk, ihram, ihpc, ihi⟩ := ih
          { vm with
            display := updFn vm.display (cellIdx sx sy p) (!vm.display (cellIdx sx sy p)) }
          htail
        refine ⟨?_, ?_, ihk, ihram, ihpc, ihi⟩
        · intro j
          rw [ihd j]
          by_cases hj : j = cellIdx sx sy p
          · subst hj
            rw [if_neg hnotT, if_pos ⟨p, List.mem_cons_self p T, hbit, rfl⟩]
            show updFn vm.display (cellIdx sx sy p) (!vm.display (cellIdx sx sy p))
              (cellIdx sx sy p) = !vm.display (cellIdx sx sy p)
            rw [updFn, if_pos rfl]
          · have hdisp : updFn vm.display (cellIdx sx sy p)
                (!vm.display (cellIdx sx sy p)) j = vm.display j := by
              rw [updFn, if_neg hj]
            by_cases hex : ∃ q ∈ T, ramSnap (addr + q.1) &&& (0x80 >>> q.2) ≠ 0 ∧
                cellIdx sx sy q = j
            · have hCons : ∃ q ∈ p :: T, ramSnap (addr + q.1) &&& (0x80 >>> q.2) ≠ 0 ∧
                  cellIdx sx sy q = j := by
                obtain ⟨q, hqT, hb, hi⟩ := hex
                exact ⟨q, List.mem_cons_of_mem p hqT, hb, hi⟩
              rw [if_pos hex, if_pos hCons]
              show (!(updFn vm.display (cellIdx sx sy p)
                (!vm.display (cellIdx sx sy p)) j)) = (!(vm.display j))
              rw [hdisp]
            · have hCons : ¬(∃ q ∈ p :: T, ramSnap (addr + q.1) &&& (0x80 >>> q.2) ≠ 0 ∧
                  cellIdx sx sy q = j) := by
                rintro ⟨q, hqC, hb, hi⟩
                rcases List.mem_cons.mp hqC with rfl | hqT
                · exact hj (hi ▸ rfl)
                · exact hex ⟨q, hqT, hb, hi⟩
              rw [if_neg hex, if_neg hCons]
              exact hdisp
        · rw [ihv]
          have hTiff : (∃ q ∈ T, ramSnap (addr + q.1) &&& (0x80 >>> q.2) ≠ 0 ∧
              updFn vm.display (cellIdx sx sy p) (!vm.display (cellIdx sx sy p))
                (cellIdx sx sy q) = true) ↔
              (∃ q ∈ T, ramSnap (addr + q.1) &&& (0x80 >>> q.2) ≠ 0 ∧
                vm.display (cellIdx sx sy q) = true) := by
            constructor
            · rintro ⟨q, hqT, hb, hdq⟩
              rw [updFn, if_neg (fun hc => hhead q hqT hc.symm)] at hdq
              exact ⟨q, hqT, hb, hdq⟩
            · rintro ⟨q, hqT, hb, hdq⟩
              refine ⟨q, hqT, hb, ?_⟩
              rw [updFn, if_neg (fun hc => hhead q hqT hc.symm)]
              exact hdq
          by_cases hex : ∃ q ∈ T, ramSnap (addr + q.1) &&& (0x80 >>> q.2) ≠ 0 ∧
              vm.display (cellIdx sx sy q) = true
          · have hCons : ∃ q ∈ p :: T, ramSnap (addr + q.1) &&& (0x80 >>> q.2) ≠ 0 ∧
                vm.display (cellIdx sx sy q) = true := by
              obtain ⟨q, hqT, hb, hdq⟩ := hex
              exact ⟨q, List.mem_cons_of_mem p hqT, hb, hdq⟩
            rw [if_pos (hTiff.mpr hex), if_pos hCons]
          · have hCons : ¬(∃ q ∈ p :: T, ramSnap (addr + q.1) &&& (0x80 >>> q.2) ≠ 0 ∧
                vm.display (cellIdx sx sy q) = true) := by
              rintro ⟨q, hqC, hb, hdq⟩
              rcases List.mem_cons.mp hqC with rfl | hqT
              · rw [hdf] at hdq
                cases hdq
              · exact hex ⟨q, hqT, hb, hdq⟩
            rw [if_neg (fun hc => hex (hTiff.mp hc)), if_neg hCons]
    · rw [drawPair_of_not_bit ramSnap addr sx sy vm p hbit]
      obtain ⟨ihd, ihv, ihk, ihram, ihpc, ihi⟩ := ih vm htail
      refine ⟨?_, ?_, ihk, ihram, ihpc, ihi⟩
      · intro j
        rw [ihd j]
        by_cases hex : ∃ q ∈ T, ramSnap (addr + q.1) &&& (0x80 >>> q.2) ≠ 0 ∧
            cellIdx sx sy q = j
        · have hCons : ∃ q ∈ p :: T, ramSnap (addr + q.1) &&& (0x80 >>> q.2) ≠ 0 ∧
              cellIdx sx sy q = j := by
            obtain ⟨q, hqT, hb, hi⟩ := hex
            exact ⟨q, List.mem_cons_of_mem p hqT, hb, hi⟩
          rw [if_pos hex, if_pos hCons]
        · have hCons : ¬(∃ q ∈ p :: T, ramSnap (addr + q.1) &&& (0x80 >>> q.2) ≠ 0 ∧
              cellIdx sx sy q = j) := by
            rintro ⟨q, hqC, hb, hi⟩
            rcases List.mem_cons.mp hqC with rfl | hqT
            · exact hbit hb
            · exact hex ⟨q, hqT, hb, hi⟩
          rw [if_neg hex, if_neg hCons]
      · rw [ihv]
        by_cases hex : ∃ q ∈ T, ramSnap (addr + q.1) &&& (0x80 >>> q.2) ≠ 0 ∧
            vm.display (cellIdx sx sy q) = true
        · have hCons : ∃ q ∈ p :: T, ramSnap (addr + q.1) &&& (0x80 >>> q.2) ≠ 0 ∧
              vm.display (cellIdx sx sy q) = true := by
            obtain ⟨q, hqT, hb, hdq⟩ := hex
            exact ⟨q, List.mem_cons_of_mem p hqT, hb, hdq⟩
          rw [if_pos hex, if_pos hCons]
        · have hCons : ¬(∃ q ∈ p :: T, ramSnap (addr + q.1) &&& (0x80 >>> q.2) ≠ 0 ∧
              vm.display (cellIdx sx sy q) = true) := by
            rintro ⟨q, hqC, hb, hdq⟩
            rcases List.mem_cons.mp hqC with rfl | hqT
            · exact hbit hb
            · exact hex ⟨q, hqT, hb, hdq⟩
          rw [if_neg hex, if_neg hCons]

/-- Helper: membership in the loop iteration order. -/
theorem spritePairs_mem (rows : Nat) (p : Nat × Nat) :
    p ∈ spritePairs rows ↔ p.1 < rows ∧ p.2 < 8 := by
  cases p with
  | mk r c =>
    simp only [spritePairs, List.mem_flatMap, List.mem_map, List.mem_range]
    constructor
    · rintro ⟨a, ha, b, hb, heq⟩
      cases heq
      exact ⟨ha, hb⟩
    · rintro ⟨h1, h2⟩
      exact ⟨r, h1, c, h2, rfl⟩

/-- Helper: the loop visits each (row, col) offset once. -/
theorem spritePairs_nodup (rows : Nat) : (spritePairs rows).Nodup := by
  rw [spritePairs, List.nodup_flatMap]
  constructor
  · intro r hr
    refine (List.nodup_range 8).map ?_
    intro a b h
    injection h
  · refine (List.nodup_range rows).pairwise_of_forall_ne ?_
    intro a ha b hb hne x hxa hxb
    obtain ⟨c1, hc1, he1⟩ := List.mem_map.mp hxa
    obtain ⟨c2, hc2, he2⟩ := List.mem_map.mp hxb
    apply hne
    rw [← he1] at he2
    injection he2 with h1 h2
    exact h1.symm

/-- Helper: the u8 wrap-around modulo 256 collapses with the grid wrap, so
the hit cell is ((Vy+row) mod 32, (Vx+col) mod 64). -/
theorem cellIdx_claim (sx sy r c : Nat) :
    cellIdx sx sy (r, c) = ((sy + r) % 32) * 64 + (sx + c) % 64 := by
  rw [cellIdx]
  omega

/-- Helper: with at most 32 rows, distinct sprite offsets hit distinct
display cells. -/
theorem spritePairs_pairwise (sx sy rows : Nat) (hrows : rows ≤ 32) :
    (spritePairs rows).Pairwise (fun p q => cellIdx sx sy p ≠ cellIdx sx sy q) := by
  refine (spritePairs_nodup rows).pairwise_of_forall_ne ?_
  intro p hp q hq hne heq
  obtain ⟨hp1, hp2⟩ := (spritePairs_mem rows p).mp hp
  obtain ⟨hq1, hq2⟩ := (spritePairs_mem rows q).mp hq
  apply hne
  rw [cellIdx, cellIdx] at heq
  have h1 : p.1 = q.1 := by omega
  have h2 : p.2 = q.2 := by omega
  exact Prod.ext h1 h2

/-- Helper: quantifying over the loop order is quantifying over row < rows
and col < 8. -/
theorem pairs_exists_iff (rows : Nat) (P : Nat × Nat → Prop) :
    (∃ p ∈ spritePairs rows, P p) ↔ (∃ r < rows, ∃ c < 8, P (r, c)) := by
  constructor
  · rintro ⟨⟨r, c⟩, hmem, hP⟩
    obtain ⟨h1, h2⟩ := (spritePairs_mem rows (r, c)).mp hmem
    exact ⟨r, h1, c, h2, hP⟩
  · rintro ⟨r, h1, c, h2, hP⟩
    exact ⟨(r, c), (spritePairs_mem rows (r, c)).mpr ⟨h1, h2⟩, hP⟩

/-- Helper: full characterization of one draw-sprite execution with the
sprite read range in bounds: it clears VF, then XOR-draws each set sprite
bit into the wrapped cell, setting VF exactly when a lit cell is erased;
memory, pc and the index register are untouched. -/
theorem exec_display_char (vm : Vm) (vx vy rows sx sy : Nat)
    (hrows : rows ≤ 15)
    (hsx : updFn vm.v_registers 0xf 0 vx = sx)
    (hsy : updFn vm.v_registers 0xf 0 vy = sy)
    (hb : vm.i_register + rows ≤ 4096) :
    ∃ vm1, exec_display vm vx vy rows = .ok vm1 ∧
      (∀ j, vm1.display j =
        (if ∃ p ∈ spritePairs rows, vm.ram (vm.i_register + p.1) &&& (0x80 >>> p.2) ≠ 0 ∧
            cellIdx sx sy p = j
         then !(vm.display j) else vm.display j)) ∧
      (vm1.v_registers 0xf =
        (if ∃ p ∈ spritePairs rows, vm.ram (vm.i_register + p.1) &&& (0x80 >>> p.2) ≠ 0 ∧
            vm.display (cellIdx sx sy p) = true
         then 1 else 0)) ∧
      (∀ k, k ≠ 0xf → vm1.v_registers k = vm.v_registers k) ∧
      vm1.ram = vm.ram ∧ vm1.pc = vm.pc ∧ vm1.i_register = vm.i_register := by
  have hpw := spritePairs_pairwise sx sy rows (by omega)
  obtain ⟨ihd, ihv, ihk, ihram, ihpc, ihi⟩ := drawLoop_char vm.ram vm.i_register sx sy
    (spritePairs rows) { vm with v_registers := updFn vm.v_registers 0xf 0 } hpw
  have he1 : exec_display vm vx vy rows = .ok ((spritePairs rows).foldl
      (drawPair vm.ram vm.i_register sx sy)
      { vm with v_registers := updFn vm.v_registers 0xf 0 }) := by
    simp only [exec_display]
    rw [if_neg (show ¬(vm.i_register + rows > 4096) by omega)]
    rw [hsx, hsy]
  refine ⟨_, he1, ihd, ihv, ?_, ihram, ihpc, ihi⟩
  intro k hk
  refine (ihk k hk).trans ?_
  show updFn vm.v_registers 0xf 0 k = vm.v_registers k
  rw [updFn, if_neg hk]

/-- C4: a draw-sprite instruction with operands vx, vy, rows (read range in
bounds) first clears VF, then for each of the rows×8 set sprite bits XORs the
display cell at ((Vx+col) mod 64, (Vy+row) mod 32) — wrapping independently
per axis, no clipping — and sets VF to 1 iff some XOR turned a lit cell
unlit; drawing the same sprite again at the same anchor restores every cell
to its pre-first-draw state, and the second draw reports VF = 1 whenever some
set bit fell on an initially-unlit cell. -/
theorem c4_draw_sprite_xor (vm : Vm) (vx vy rows sx sy : Nat)
    (hrows : rows ≤ 15)
    (hsx : updFn vm.v_registers 0xf 0 vx = sx)
    (hsy : updFn vm.v_registers 0xf 0 vy = sy)
    (hb : vm.i_register + rows ≤ 4096) :
    ∃ vm1 vm2,
      exec_display vm vx vy rows = .ok vm1 ∧
      (∀ x, x < 64 → ∀ y, y < 32 → vm1.display (y * 64 + x) =
        (if ∃ r < rows, ∃ c < 8, vm.ram (vm.i_register + r) &&& (0x80 >>> c) ≠ 0 ∧
            (sx + c) % 64 = x ∧ (sy + r) % 32 = y
         then !(vm.display (y * 64 + x)) else vm.display (y * 64 + x))) ∧
      (vm1.v_registers 0xf =
        (if ∃ r < rows, ∃ c < 8, vm.ram (vm.i_register + r) &&& (0x80 >>> c) ≠ 0 ∧
            vm.display (((sy + r) % 32) * 64 + (sx + c) % 64) = true
         then 1 else 0)) ∧
      (∀ k, k ≠ 0xf → vm1.v_registers k = vm.v_registers k) ∧
      vm1.ram = vm.ram ∧ vm1.pc = vm.pc ∧ vm1.i_register = vm.i_register ∧
      exec_display vm1 vx vy rows = .ok vm2 ∧
      (∀ j, vm2.display j = vm.display j) ∧
      ((∃ r < rows, ∃ c < 8, vm.ram (vm.i_register + r) &&& (0x80 >>> c) ≠ 0 ∧
          vm.display (((sy + r) % 32) * 64 + (sx + c) % 64) = false) →
        vm2.v_registers 0xf = 1) := by
  obtain ⟨vm1, he1, hd1, hv1, hk1, hram1, hpc1, hi1⟩ :=
    exec_display_char vm vx vy rows sx sy hrows hsx hsy hb
  have hsx1 : updFn vm1.v_registers 0xf 0 vx = sx := by
    by_cases hvx : vx = 0xf
    · subst hvx
      rw [updFn, if_pos rfl]
      rw [updFn, if_pos rfl] at hsx
      exact hsx
    · rw [updFn, if_neg hvx]
      rw [updFn, if_neg hvx] at hsx
      rw [hk1 vx hvx]
      exact hsx
  have hsy1 : updFn vm1.v_registers 0xf 0 vy = sy := by
    by_cases hvy : vy = 0xf
    · subst hvy
      rw [updFn, if_pos rfl]
      rw [updFn, if_pos rfl] at hsy
      exact hsy
    · rw [updFn, if_neg hvy]
      rw [updFn, if_neg hvy] at hsy
      rw [hk1 vy hvy]
      exact hsy
  obtain ⟨vm2, he2, hd2, hv2, hk2, hram2, hpc2, hi2⟩ :=
    exec_display_char vm1 vx vy rows sx sy hrows hsx1 hsy1 (by rw [hi1]; exact hb)
  rw [hram1, hi1] at hd2 hv2
  refine ⟨vm1, vm2, he1, ?_, ?_, hk1, hram1, hpc1, hi1, he2, ?_, ?_⟩
  · intro x hx y hy
    rw [hd1 (y * 64 + x)]
    have hcond : (∃ p ∈ spritePairs rows,
        vm.ram (vm.i_register + p.1) &&& (0x80 >>> p.2) ≠ 0 ∧
          cellIdx sx sy p = y * 64 + x) ↔
        (∃ r < rows, ∃ c < 8, vm.ram (vm.i_register + r) &&& (0x80 >>> c) ≠ 0 ∧
          (sx + c) % 64 = x ∧ (sy + r) % 32 = y) := by
      rw [pairs_exists_iff]
      constructor
      · rintro ⟨r, hr, c, hc, hbit, hcell⟩
        rw [cellIdx_claim] at hcell
        exact ⟨r, hr, c, hc, hbit, by omega, by omega⟩
      · rintro ⟨r, hr, c, hc, hbit, h1, h2⟩
        refine ⟨r, hr, c, hc, hbit, ?_⟩
        rw [cellIdx_claim]
        omega
    by_cases hc : ∃ r < rows, ∃ c < 8, vm.ram (vm.i_register + r) &&& (0x80 >>> c) ≠ 0 ∧
        (sx + c) % 64 = x ∧ (sy + r) % 32 = y
    · rw [if_pos (hcond.mpr hc), if_pos hc]
    · rw [if_neg (fun hcc => hc (hcond.mp hcc)), if_neg hc]
  · rw [hv1]
    have hcond : (∃ p ∈ spritePairs rows,
        vm.ram (vm.i_register + p.1) &&& (0x80 >>> p.2) ≠ 0 ∧
          vm.display (cellIdx sx sy p) = true) ↔
        (∃ r < rows, ∃ c < 8, vm.ram (vm.i_register + r) &&& (0x80 >>> c) ≠ 0 ∧
          vm.display (((sy + r) % 32) * 64 + (sx + c) % 64) = true) := by
      rw [pairs_exists_iff]
      constructor
      · rintro ⟨r, hr, c, hc, hbit, hdq⟩
        rw [cellIdx_claim] at hdq
        exact ⟨r, hr, c, hc, hbit, hdq⟩
      · rintro ⟨r, hr, c, hc, hbit, hdq⟩
        refine ⟨r, hr, c, hc, hbit, ?_⟩
        rw [cellIdx_claim]
        exact hdq
    by_cases hc : ∃ r < rows, ∃ c < 8, vm.ram (vm.i_register + r) &&& (0x80 >>> c) ≠ 0 ∧
        vm.display (((sy + r) % 32) * 64 + (sx + c) % 64) = true
    · rw [if_pos (hcond.mpr hc), if_pos hc]
    · rw [if_neg (fun hcc => hc (hcond.mp hcc)), if_neg hc]
  · intro j
    rw [hd2 j]
    by_cases hex : ∃ p ∈ spritePairs rows,
        vm.ram (vm.i_register + p.1) &&& (0x80 >>> p.2) ≠ 0 ∧ cellIdx sx sy p = j
    · rw [if_pos hex, hd1 j, if_pos hex, Bool.not_not]
    · rw [if_neg hex, hd1 j, if_neg hex]
  · rintro ⟨r, hr, c, hc, hbit, hdf⟩
    rw [hv2]
    rw [if_pos ?_]
    refine ⟨(r, c), (spritePairs_mem rows (r, c)).mpr ⟨hr, hc⟩, hbit, ?_⟩
    rw [hd1 (cellIdx sx sy (r, c))]
    rw [if_pos ⟨(r, c), (spritePairs_mem rows (r, c)).mpr ⟨hr, hc⟩, hbit, rfl⟩]
    rw [cellIdx_claim, hdf]
    rfl

/-- C4 witness: instantiation at `spriteVm`, the spec's 8×4 sprite drawn
twice at (1, 0). -/
theorem c4_draw_sprite_xor_witness :
    ∃ vm1 vm2,
      exec_display spriteVm 0 1 4 = .ok vm1 ∧
      (∀ x, x < 64 → ∀ y, y < 32 → vm1.display (y * 64 + x) =
        (if ∃ r < 4, ∃ c < 8, spriteVm.ram (spriteVm.i_register + r) &&& (0x80 >>> c) ≠ 0 ∧
            (1 + c) % 64 = x ∧ (0 + r) % 32 = y
         then !(spriteVm.display (y * 64 + x)) else spriteVm.display (y * 64 + x))) ∧
      (vm1.v_registers 0xf =
        (if ∃ r < 4, ∃ c < 8, spriteVm.ram (spriteVm.i_register + r) &&& (0x80 >>> c) ≠ 0 ∧
            spriteVm.display (((0 + r) % 32) * 64 + (1 + c) % 64) = true
         then 1 else 0)) ∧
      (∀ k, k ≠ 0xf → vm1.v_registers k = spriteVm.v_registers k) ∧
      vm1.ram = spriteVm.ram ∧ vm1.pc = spriteVm.pc ∧ vm1.i_register = spriteVm.i_register ∧
      exec_display vm1 0 1 4 = .ok vm2 ∧
      (∀ j, vm2.display j = spriteVm.display j) ∧
      ((∃ r < 4, ∃ c < 8, spriteVm.ram (spriteVm.i_register + r) &&& (0x80 >>> c) ≠ 0 ∧
          spriteVm.display (((0 + r) % 32) * 64 + (1 + c) % 64) = false) →
        vm2.v_registers 0xf = 1) :=
  c4_draw_sprite_xor spriteVm 0 1 4 1 0 (by norm_num) rfl rfl (by norm_num [spriteVm, baseVm])

end Chip8
